import Mathlib

/-!
Shallow embedding of `src/scripts/run.py`, a tool that diffs two SQL schema
dumps and renders a textual up/down migration.  The Python program has three
parts, each translated here directly from the source:

* `parse_schema` (lines 9-34): a regex scan for `CREATE\s+TABLE\s+(\w+)\s*\((.*?)\);`
  blocks (case-insensitive, DOTALL), splitting each body on commas and building
  a dict of tables to column dicts.
* `diff_schemas` (lines 37-65): dictionary diff producing a change set with
  four categories.
* `generate_migration` (lines 68-113): string rendering of the change set.

Python dicts are modelled as association lists (`List (String × _)`) with
Python's assignment semantics: assigning to an existing key updates the value
in place (keeping the key's original position), assigning a fresh key appends
at the end.  Iterating a dict visits entries in that order.  Strings are plain
Lean `String`s; the helpers `pyStrip`, `pyUpper`, `pySplitWs`, `pyJoin`,
`splitComma` model the Python `str` methods used by the source (for ASCII
input, which is also what the regex classes `\s` and `\w` are modelled for).
-/

/-- Python `\s` / `str` whitespace for ASCII: space, tab, newline, carriage
return, vertical tab, form feed. -/
def py_isspace (c : Char) : Bool :=
  c == ' ' || c == '\t' || c == '\n' || c == '\r' || c == '\x0b' || c == '\x0c'

/-- Python regex `\w` for ASCII: letters, digits and underscore. -/
def py_isword (c : Char) : Bool :=
  c.isAlpha || c.isDigit || c == '_'

/-- Models Python `str.strip()` (ASCII whitespace on both ends). -/
def pyStrip (s : String) : String :=
  String.mk (((s.data.dropWhile py_isspace).reverse.dropWhile py_isspace).reverse)

/-- Models Python `str.upper()` for ASCII text. -/
def pyUpper (s : String) : String :=
  String.mk (s.data.map Char.toUpper)

/-- Models Python `str.startswith(kw)`. -/
def strStartsWith (s kw : String) : Bool :=
  kw.data.isPrefixOf s.data

/-- Helper for `pySplitWs`: split a character list on runs of whitespace. -/
def splitWsAux : List Char → List Char → List String
  | [], acc => if acc.isEmpty then [] else [String.mk acc.reverse]
  | c :: rest, acc =>
    if py_isspace c then
      if acc.isEmpty then splitWsAux rest []
      else String.mk acc.reverse :: splitWsAux rest []
    else splitWsAux rest (c :: acc)

/-- Models Python `str.split()` with no separator: split on whitespace runs,
dropping empty tokens. -/
def pySplitWs (s : String) : List String :=
  splitWsAux s.data []

/-- Helper for `splitComma`. -/
def splitCommaAux : List Char → List Char → List String
  | [], acc => [String.mk acc.reverse]
  | c :: rest, acc =>
    if c == ',' then String.mk acc.reverse :: splitCommaAux rest []
    else splitCommaAux rest (c :: acc)

/-- Models Python `str.split(",")`: split on every comma, keeping empty
fragments. -/
def splitComma (s : String) : List String :=
  splitCommaAux s.data []

/-- Models Python `sep.join(parts)`. -/
def pyJoin (sep : String) : List String → String
  | [] => ""
  | [a] => a
  | a :: b :: rest => a ++ sep ++ pyJoin sep (b :: rest)

/-- Membership test for a Python dict modelled as an association list
(`key in d`). -/
def dictMem (k : String) (d : List (String × α)) : Bool :=
  d.any (fun p => p.1 == k)

/-- Lookup in a Python dict modelled as an association list (`d[key]`). -/
def dictGet (d : List (String × α)) (k : String) : Option α :=
  (d.find? (fun p => p.1 == k)).map (fun p => p.2)

/-- Models Python dict assignment `d[k] = v`: update in place when the key is
present (keeping its position), append at the end otherwise. -/
def dictSet (d : List (String × α)) (k : String) (v : α) : List (String × α) :=
  if dictMem k d then d.map (fun p => if p.1 == k then (k, v) else p)
  else d ++ [(k, v)]

/-- Models a column dict: column name mapped to its raw definition text. -/
abbrev ColumnSet := List (String × String)

/-- Models a schema dict: table name mapped to its column dict. -/
abbrev Schema := List (String × ColumnSet)

/-- Case-insensitive match of a literal pattern (given upper or lower case)
against the front of the text; on success returns the remaining text.  Models
the literal parts of the regex under `re.IGNORECASE` for ASCII. -/
def matchLitCI : List Char → List Char → Option (List Char)
  | [], s => some s
  | _ :: _, [] => none
  | p :: ps, c :: cs => if c.toUpper == p.toUpper then matchLitCI ps cs else none

/-- Models the regex piece `\s+`: at least one whitespace character, maximal
munch (the following literal in the pattern is never whitespace, so greedy
matching never backtracks here). -/
def takeSpaces1 : List Char → Option (List Char)
  | [] => none
  | c :: rest => if py_isspace c then some (rest.dropWhile py_isspace) else none

/-- Models the capture `(\w+)`: a maximal nonempty run of word characters
(the pattern continues with `\s*\(`, neither of which is a word character,
so greedy matching never backtracks here). -/
def spanWord (s : List Char) : Option (List Char × List Char) :=
  let w := s.takeWhile py_isword
  if w.isEmpty then none else some (w, s.dropWhile py_isword)

/-- Models the non-greedy `(.*?)\);` under DOTALL: the body extends to the
first occurrence of the two-character sequence `);`.  Returns the body and the
text after the match, or `none` when no `);` follows. -/
def splitBody : List Char → List Char → Option (List Char × List Char)
  | acc, ')' :: ';' :: rest => some (acc.reverse, rest)
  | acc, c :: rest => splitBody (c :: acc) rest
  | _, [] => none

/-- Attempt to match `CREATE\s+TABLE\s+(\w+)\s*\((.*?)\);` (IGNORECASE,
DOTALL) at the start of the text.  On success returns the captured table name,
the captured body, and the text after the match. -/
def matchAt (s : List Char) : Option (String × String × List Char) :=
  match matchLitCI "CREATE".data s with
  | none => none
  | some r1 =>
    match takeSpaces1 r1 with
    | none => none
    | some r2 =>
      match matchLitCI "TABLE".data r2 with
      | none => none
      | some r3 =>
        match takeSpaces1 r3 with
        | none => none
        | some r4 =>
          match spanWord r4 with
          | none => none
          | some (name, r5) =>
            match r5.dropWhile py_isspace with
            | '(' :: r6 =>
              match splitBody [] r6 with
              | none => none
              | some (body, rest) => some (String.mk name, String.mk body, rest)
            | _ => none

/-- Models `pattern.finditer(sql)`: scan left to right, trying a match at each
position; on success emit the captures and continue after the match,
otherwise advance one character.  The fuel argument (initialised to the text
length) bounds the recursion; every step consumes at least one character, so
the initial fuel is always sufficient. -/
def findMatches : Nat → List Char → List (String × String)
  | 0, _ => []
  | _, [] => []
  | fuel + 1, s =>
    match matchAt s with
    | some (name, body, rest) => (name, body) :: findMatches fuel rest
    | none =>
      match s with
      | [] => []
      | _ :: rest => findMatches fuel rest

/-- All matches of the CREATE TABLE pattern in the given SQL text, in order. -/
def findMatchesOf (sql : String) : List (String × String) :=
  findMatches sql.data.length sql.data

/-- Table-level constraint keywords skipped by the parser (run.py line 28). -/
def kwSkipList : List String :=
  ["PRIMARY KEY", "FOREIGN KEY", "UNIQUE", "CHECK", "CONSTRAINT"]

/-- Body of the fragment loop in `parse_schema` (run.py lines 21-33): strip
the fragment, drop it when empty, skip it when its upper-cased text starts
with a table-level constraint keyword, otherwise split on whitespace and, when
there are at least two tokens, assign the first as column name and the rest
rejoined with single spaces as the definition. -/
def fragStep (columns : ColumnSet) (fragment : String) : ColumnSet :=
  let line := pyStrip fragment
  if line = "" then columns
  else
    let upper := pyUpper line
    if kwSkipList.any (fun kw => strStartsWith upper kw) then columns
    else
      match pySplitWs line with
      | p0 :: p1 :: rest => dictSet columns p0 (pyJoin " " (p1 :: rest))
      | _ => columns

/-- Parse one CREATE TABLE body: split on commas and fold the fragment loop
(run.py lines 20-33). -/
def parse_body (body : String) : ColumnSet :=
  (splitComma body).foldl fragStep []

/-- Models `parse_schema` (run.py lines 9-34): find every CREATE TABLE block
and build the table dict, later blocks for the same name overwriting earlier
ones. -/
def parse_schema (sql : String) : Schema :=
  (findMatchesOf sql).foldl (fun tables m => dictSet tables m.1 (parse_body m.2)) []

/-- The change set produced by `diff_schemas` (run.py lines 39-44). -/
structure ChangeSet where
  added_tables : List (String × ColumnSet)
  removed_tables : List (String × ColumnSet)
  added_columns : List (String × ColumnSet)
  removed_columns : List (String × ColumnSet)
deriving DecidableEq

/-- Models `d.setdefault(t, {})[c] = v` on a dict of dicts (run.py lines
59 and 63): when `t` is present update its inner dict in place, otherwise
append a fresh singleton inner dict. -/
def setdefaultSet (d : List (String × ColumnSet)) (t c v : String) :
    List (String × ColumnSet) :=
  if dictMem t d then d.map (fun p => if p.1 == t then (p.1, dictSet p.2 c v) else p)
  else d ++ [(t, [(c, v)])]

/-- Models `diff_schemas` (run.py lines 37-65).  Tables only in `new` are
added, tables only in `old` are removed; for tables in both (iterated in
`new`'s order) columns are compared by name only. -/
def diff_schemas (old new : Schema) : ChangeSet :=
  let added_tables := new.foldl
    (fun acc q => if dictMem q.1 old then acc else dictSet acc q.1 q.2) []
  let removed_tables := old.foldl
    (fun acc q => if dictMem q.1 new then acc else dictSet acc q.1 q.2) []
  let cols := new.foldl
    (fun (acc : List (String × ColumnSet) × List (String × ColumnSet)) q =>
      match dictGet old q.1 with
      | none => acc
      | some oldCols =>
        (q.2.foldl (fun a c =>
            if dictMem c.1 oldCols then a else setdefaultSet a q.1 c.1 c.2) acc.1,
         oldCols.foldl (fun a c =>
            if dictMem c.1 q.2 then a else setdefaultSet a q.1 c.1 c.2) acc.2))
    ([], [])
  { added_tables := added_tables, removed_tables := removed_tables,
    added_columns := cols.1, removed_columns := cols.2 }

/-- Join of column definitions inside a CREATE TABLE block (run.py lines 77
and 85): `",\n    ".join(f"{name} {defn}" ...)`. -/
def colsJoin (columns : ColumnSet) : String :=
  pyJoin ",\n    " (columns.map (fun c => c.1 ++ " " ++ c.2))

/-- The `CREATE TABLE ...` statement rendered by run.py lines 78 and 86. -/
def createTableStmt (table : String) (columns : ColumnSet) : String :=
  "CREATE TABLE " ++ table ++ " (\n    " ++ colsJoin columns ++ "\n);"

/-- The `DROP TABLE IF EXISTS ...` statement rendered by run.py lines 79/84. -/
def dropTableStmt (table : String) : String :=
  "DROP TABLE IF EXISTS " ++ table ++ ";"

/-- The `ALTER TABLE ... ADD COLUMN ...` statement (run.py lines 92/108). -/
def addColumnStmt (table col defn : String) : String :=
  "ALTER TABLE " ++ table ++ " ADD COLUMN " ++ col ++ " " ++ defn ++ ";"

/-- The `ALTER TABLE ... DROP COLUMN ...` statement (run.py lines 97/105). -/
def dropColumnStmt (table col : String) : String :=
  "ALTER TABLE " ++ table ++ " DROP COLUMN " ++ col ++ ";"

/-- The manual-action comment emitted instead of DROP COLUMN for the sqlite
dialect (run.py lines 95/103). -/
def sqliteNoteStmt (table col : String) : String :=
  "-- SQLite: ALTER TABLE " ++ table ++ " DROP COLUMN " ++ col ++ "; (requires SQLite 3.35+)"

/-- Models `generate_migration` (run.py lines 68-113), threading the pair of
`up_lines` and `down_lines` through the four category loops.  The source sets
`has_changes = True` inside every loop body, so after the loops `has_changes`
is true exactly when some category list is nonempty. -/
def generate_migration (changes : ChangeSet) (dialect : String) : String :=
  let s1 := changes.added_tables.foldl
    (fun ud q => (ud.1 ++ [createTableStmt q.1 q.2], ud.2 ++ [dropTableStmt q.1]))
    (["-- Up"], ["-- Down"])
  let s2 := changes.removed_tables.foldl
    (fun ud q => (ud.1 ++ [dropTableStmt q.1], ud.2 ++ [createTableStmt q.1 q.2])) s1
  let s3 := changes.added_columns.foldl
    (fun ud q => q.2.foldl (fun ud2 c =>
      (ud2.1 ++ [addColumnStmt q.1 c.1 c.2],
       ud2.2 ++ [if dialect == "sqlite" then sqliteNoteStmt q.1 c.1
                 else dropColumnStmt q.1 c.1])) ud) s2
  let s4 := changes.removed_columns.foldl
    (fun ud q => q.2.foldl (fun ud2 c =>
      (ud2.1 ++ [if dialect == "sqlite" then sqliteNoteStmt q.1 c.1
                 else dropColumnStmt q.1 c.1],
       ud2.2 ++ [addColumnStmt q.1 c.1 c.2])) ud) s3
  let has_changes := !(changes.added_tables.isEmpty && changes.removed_tables.isEmpty &&
      changes.added_columns.isEmpty && changes.removed_columns.isEmpty)
  if !has_changes then "-- No changes detected\n"
  else pyJoin "\n" s4.1 ++ "\n\n" ++ pyJoin "\n" s4.2 ++ "\n"

/-- Keys of an association list are pairwise distinct.  Every Python dict
satisfies this, and the spec's data model states table and column names are
unique. -/
abbrev keysNodup (d : List (String × α)) : Prop :=
  (d.map (fun p => p.1)).Nodup

/-- Well-formed schema: table names are distinct and, within each table,
column names are distinct (the spec's Schema / Column Set data model). -/
abbrev schemaWf (s : Schema) : Prop :=
  keysNodup s ∧ ∀ p ∈ s, keysNodup p.2

/-- Columns of `source` whose names are absent from `other`, in `source`'s
order. -/
def colFilter (source other : ColumnSet) : ColumnSet :=
  source.filter (fun c => !dictMem c.1 other)

/-- Canonical form of the `added_columns` category of `diff_schemas old new`:
tables in `new`'s insertion order (restricted to tables present in both
schemas and having at least one added column), columns in `new`'s column
insertion order. -/
def addedColumnsOf (old new : Schema) : List (String × ColumnSet) :=
  new.filterMap (fun q =>
    match dictGet old q.1 with
    | none => none
    | some oldCols =>
      let D := colFilter q.2 oldCols
      if D.isEmpty then none else some (q.1, D))

/-- Canonical form of the `removed_columns` category of `diff_schemas old
new`: tables in `new`'s insertion order (restricted to tables present in both
schemas and having at least one removed column), columns in `old`'s column
insertion order. -/
def removedColumnsOf (old new : Schema) : List (String × ColumnSet) :=
  new.filterMap (fun q =>
    match dictGet old q.1 with
    | none => none
    | some oldCols =>
      let D := colFilter oldCols q.2
      if D.isEmpty then none else some (q.1, D))

/-- Modelled from the spec claim wording: removed columns listed following
the insertion order of the OLD schema's tables, then the old schema's column
insertion order within each table.  Used to compare the claimed ordering with
the ordering the code actually produces. -/
def removedColumnsSpecOrder (old new : Schema) : List (String × ColumnSet) :=
  old.filterMap (fun q =>
    match dictGet new q.1 with
    | none => none
    | some newCols =>
      let D := colFilter q.2 newCols
      if D.isEmpty then none else some (q.1, D))

/-- Equality of two column dicts as mappings (Python `==` on dicts): the same
lookup result for every key. -/
def dictEq (d e : ColumnSet) : Prop :=
  ∀ k, dictGet d k = dictGet e k

/-- Lifts `dictEq` to optional column dicts. -/
def optColEq : Option ColumnSet → Option ColumnSet → Prop
  | none, none => True
  | some a, some b => dictEq a b
  | _, _ => False

/-- Equality of two table-to-columns dicts as mappings (Python `==` on dicts
of dicts): same key set, and for each key the inner dicts are equal as
mappings. -/
def dictEq2 (d e : List (String × ColumnSet)) : Prop :=
  ∀ k, optColEq (dictGet d k) (dictGet e k)

/-- Flattened form of the `up_lines` list built by `generate_migration`:
the `-- Up` header followed by the statements of the four categories in
source order. -/
def upLinesOf (changes : ChangeSet) (dialect : String) : List String :=
  ["-- Up"]
  ++ changes.added_tables.map (fun q => createTableStmt q.1 q.2)
  ++ changes.removed_tables.map (fun q => dropTableStmt q.1)
  ++ changes.added_columns.flatMap (fun q => q.2.map (fun c => addColumnStmt q.1 c.1 c.2))
  ++ changes.removed_columns.flatMap (fun q => q.2.map (fun c =>
       if dialect == "sqlite" then sqliteNoteStmt q.1 c.1 else dropColumnStmt q.1 c.1))

/-- Flattened form of the `down_lines` list built by `generate_migration`. -/
def downLinesOf (changes : ChangeSet) (dialect : String) : List String :=
  ["-- Down"]
  ++ changes.added_tables.map (fun q => dropTableStmt q.1)
  ++ changes.removed_tables.map (fun q => createTableStmt q.1 q.2)
  ++ changes.added_columns.flatMap (fun q => q.2.map (fun c =>
       if dialect == "sqlite" then sqliteNoteStmt q.1 c.1 else dropColumnStmt q.1 c.1))
  ++ changes.removed_columns.flatMap (fun q => q.2.map (fun c => addColumnStmt q.1 c.1 c.2))

theorem dictMem_nil (k : String) : dictMem k ([] : List (String × α)) = false := rfl

theorem dictMem_cons (k : String) (p : String × α) (d : List (String × α)) :
    dictMem k (p :: d) = (p.1 == k || dictMem k d) := by
  simp [dictMem]

theorem dictMem_append (k : String) (d e : List (String × α)) :
    dictMem k (d ++ e) = (dictMem k d || dictMem k e) := by
  simp [dictMem]

theorem dictMem_eq_true_iff (k : String) (d : List (String × α)) :
    dictMem k d = true ↔ ∃ p ∈ d, p.1 = k := by
  simp [dictMem, List.any_eq_true]

theorem dictMem_eq_false_iff (k : String) (d : List (String × α)) :
    dictMem k d = false ↔ ∀ p ∈ d, p.1 ≠ k := by
  simp [dictMem, List.any_eq_false]

theorem dictMem_of_mem (p : String × α) (d : List (String × α)) (h : p ∈ d) :
    dictMem p.1 d = true := by
  exact (dictMem_eq_true_iff p.1 d).mpr ⟨p, h, rfl⟩

theorem dictGet_nil (k : String) : dictGet ([] : List (String × α)) k = none := rfl

theorem dictGet_cons (k : String) (p : String × α) (d : List (String × α)) :
    dictGet (p :: d) k = if p.1 == k then some p.2 else dictGet d k := by
  by_cases h : p.1 == k
  · simp [dictGet, List.find?_cons_of_pos, h]
  · simp only [Bool.not_eq_true] at h
    simp [dictGet, List.find?_cons_of_neg, h]

theorem dictGet_append (k : String) (d e : List (String × α)) :
    dictGet (d ++ e) k = (dictGet d k).orElse (fun _ => dictGet e k) := by
  induction d with
  | nil => simp [dictGet_nil, Option.orElse]
  | cons p d ih =>
    rw [List.cons_append, dictGet_cons, dictGet_cons]
    by_cases h : p.1 == k <;> simp [h, ih, Option.orElse]

theorem dictGet_eq_none_iff (k : String) (d : List (String × α)) :
    dictGet d k = none ↔ dictMem k d = false := by
  induction d with
  | nil => simp [dictGet_nil, dictMem_nil]
  | cons p d ih =>
    rw [dictGet_cons, dictMem_cons]
    by_cases h : p.1 == k <;> simp [h, ih]

theorem dictGet_isSome_iff (k : String) (d : List (String × α)) :
    (dictGet d k).isSome = dictMem k d := by
  cases hm : dictMem k d
  · rw [(dictGet_eq_none_iff k d).mpr hm]; rfl
  · cases hg : dictGet d k
    · rw [(dictGet_eq_none_iff k d).mp hg] at hm; cases hm
    · rfl

theorem map_eq_self_of_fix (f : β → β) (l : List β) (h : ∀ x ∈ l, f x = x) :
    l.map f = l := by
  induction l with
  | nil => rfl
  | cons x l ih =>
    rw [List.map_cons, h x (List.mem_cons_self x l), ih (fun y hy => h y (List.mem_cons_of_mem x hy))]

theorem dictGet_mapSet (d : List (String × α)) (k k' : String) (v : α) :
    dictGet (d.map (fun p => if p.1 == k then (k, v) else p)) k' =
      if k == k' then (if dictMem k d then some v else none) else dictGet d k' := by
  induction d with
  | nil => by_cases h : k == k' <;> simp [dictGet_nil, dictMem_nil, h]
  | cons p d ih =>
    rw [List.map_cons, dictMem_cons]
    by_cases hp : p.1 == k
    · rw [if_pos hp, dictGet_cons]
      simp only [hp, Bool.true_or]
      by_cases hk : k == k'
      · simp [hk]
      · have hp1 : ¬(p.1 == k') = true := by
          rw [show p.1 = k from eq_of_beq hp]; exact hk
        rw [if_neg hk, if_neg hk, dictGet_cons, if_neg hp1, ih, if_neg hk]
    · rw [if_neg hp, dictGet_cons, dictGet_cons, ih]
      by_cases hk : k == k'
      · have hp1 : ¬(p.1 == k') = true := by
          rw [show k = k' from eq_of_beq hk] at hp; exact hp
        simp only [hk, if_true, if_neg hp1, hp, Bool.false_or]
      · simp only [hk, Bool.false_eq_true, if_false]

theorem dictGet_dictSet (d : List (String × α)) (k k' : String) (v : α) :
    dictGet (dictSet d k v) k' = if k == k' then some v else dictGet d k' := by
  unfold dictSet
  by_cases hm : dictMem k d
  · rw [if_pos hm, dictGet_mapSet, hm]
    by_cases hk : k == k' <;> simp [hk]
  · have hm' : dictMem k d = false := by simpa using hm
    rw [if_neg hm, dictGet_append]
    by_cases hk : k == k'
    · have hnone : dictGet d k' = none := by
        rw [dictGet_eq_none_iff, ← eq_of_beq hk]
        exact hm'
      rw [hnone]
      simp [Option.orElse, dictGet_cons, dictGet_nil, hk]
    · cases hg : dictGet d k' <;>
        simp [Option.orElse, hg, dictGet_cons, dictGet_nil, hk]

theorem getLast?_cons_of_ne (a : α) (l : List α) (h : l ≠ []) :
    (a :: l).getLast? = l.getLast? := by
  cases l with
  | nil => exact absurd rfl h
  | cons b t => exact List.getLast?_cons_cons

theorem dictGet_foldl_dictSet (g : (String × String) → ColumnSet)
    (l : List (String × String)) (acc : Schema) (T : String) :
    dictGet (l.foldl (fun tables m => dictSet tables m.1 (g m)) acc) T =
      match (l.filter (fun m => m.1 == T)).getLast? with
      | some m => some (g m)
      | none => dictGet acc T := by
  induction l generalizing acc with
  | nil => rfl
  | cons m rest ih =>
    rw [List.foldl_cons, ih, List.filter_cons]
    by_cases hp : m.1 == T
    · simp only [hp, if_true]
      cases hfr : (rest.filter (fun m => m.1 == T)).getLast? with
      | some mlast =>
        have hne : rest.filter (fun m => m.1 == T) ≠ [] := by
          intro hnil; rw [hnil] at hfr; cases hfr
        rw [getLast?_cons_of_ne m _ hne, hfr]
      | none =>
        have hnil : rest.filter (fun m => m.1 == T) = [] := by
          cases hfil : rest.filter (fun m => m.1 == T) with
          | nil => rfl
          | cons x xs =>
            rw [hfil] at hfr
            have hsome := List.getLast?_isSome.mpr (List.cons_ne_nil x xs)
            rw [hfr] at hsome; cases hsome
        rw [hnil]
        show dictGet (dictSet acc m.1 (g m)) T = some (g m)
        rw [dictGet_dictSet, if_pos hp]
    · simp only [hp, Bool.false_eq_true, if_false]
      cases hfr : (rest.filter (fun m => m.1 == T)).getLast? with
      | some mlast => rfl
      | none =>
        show dictGet (dictSet acc m.1 (g m)) T = dictGet acc T
        rw [dictGet_dictSet, if_neg hp]

theorem foldl_tables_skip (other : Schema) (l : List (String × ColumnSet))
    (acc : Schema) (h : ∀ q ∈ l, dictMem q.1 other = true) :
    l.foldl (fun acc q => if dictMem q.1 other then acc else dictSet acc q.1 q.2) acc
      = acc := by
  induction l generalizing acc with
  | nil => rfl
  | cons q rest ih =>
    rw [List.foldl_cons, if_pos (h q (List.mem_cons_self q rest))]
    exact ih acc (fun p hp => h p (List.mem_cons_of_mem q hp))

theorem foldl_cols_skip (t : String) (other source : ColumnSet)
    (acc : List (String × ColumnSet)) (h : ∀ c ∈ source, dictMem c.1 other = true) :
    source.foldl (fun a c => if dictMem c.1 other then a else setdefaultSet a t c.1 c.2) acc
      = acc := by
  induction source generalizing acc with
  | nil => rfl
  | cons c rest ih =>
    rw [List.foldl_cons, if_pos (h c (List.mem_cons_self c rest))]
    exact ih acc (fun p hp => h p (List.mem_cons_of_mem c hp))

theorem dictGet_self_of_nodup (s : List (String × α)) (hn : keysNodup s)
    (q : String × α) (hq : q ∈ s) : dictGet s q.1 = some q.2 := by
  induction s with
  | nil => cases hq
  | cons p rest ih =>
    have hnodup := hn
    rw [keysNodup, List.map_cons, List.nodup_cons] at hnodup
    cases List.mem_cons.mp hq with
    | inl h => rw [h, dictGet_cons]; simp
    | inr h =>
      rw [dictGet_cons]
      have hne : ¬(p.1 == q.1) = true := by
        intro hb
        exact hnodup.1 (eq_of_beq hb ▸ List.mem_map.mpr ⟨q, h, rfl⟩)
      rw [if_neg hne]
      exact ih hnodup.2 h

theorem cols_fold_id (s : Schema) (hn : keysNodup s)
    (l : List (String × ColumnSet)) (hl : ∀ q ∈ l, q ∈ s)
    (acc : List (String × ColumnSet) × List (String × ColumnSet)) :
    l.foldl
      (fun (acc : List (String × ColumnSet) × List (String × ColumnSet)) q =>
        match dictGet s q.1 with
        | none => acc
        | some oldCols =>
          (q.2.foldl (fun a c =>
              if dictMem c.1 oldCols then a else setdefaultSet a q.1 c.1 c.2) acc.1,
           oldCols.foldl (fun a c =>
              if dictMem c.1 q.2 then a else setdefaultSet a q.1 c.1 c.2) acc.2))
      acc = acc := by
  induction l generalizing acc with
  | nil => rfl
  | cons q rest ih =>
    rw [List.foldl_cons]
    rw [dictGet_self_of_nodup s hn q (hl q (List.mem_cons_self q rest))]
    simp only
    rw [foldl_cols_skip _ _ _ _ (fun c hc => dictMem_of_mem c q.2 hc),
        foldl_cols_skip _ _ _ _ (fun c hc => dictMem_of_mem c q.2 hc)]
    exact ih (fun p hp => hl p (List.mem_cons_of_mem q hp)) acc

theorem diff_self_empty (s : Schema) (hn : keysNodup s) :
    diff_schemas s s = ⟨[], [], [], []⟩ := by
  unfold diff_schemas
  rw [foldl_tables_skip s s [] (fun q hq => dictMem_of_mem q s hq)]
  rw [cols_fold_id s hn s (fun q hq => hq) ([], [])]

theorem foldl_pair_append_single (f1 f2 : α → β) (l : List α) (u d : List β) :
    l.foldl (fun ud c => (ud.1 ++ [f1 c], ud.2 ++ [f2 c])) (u, d)
      = (u ++ l.map f1, d ++ l.map f2) := by
  induction l generalizing u d with
  | nil => simp
  | cons c rest ih =>
    rw [List.foldl_cons]
    simp only
    rw [ih]
    simp [List.append_assoc]

theorem foldl_pair_append_nested (f1 f2 : (String × ColumnSet) → (String × String) → String)
    (l : List (String × ColumnSet)) (u d : List String) :
    l.foldl (fun ud q =>
        q.2.foldl (fun ud2 c => (ud2.1 ++ [f1 q c], ud2.2 ++ [f2 q c])) ud) (u, d)
      = (u ++ l.flatMap (fun q => q.2.map (f1 q)), d ++ l.flatMap (fun q => q.2.map (f2 q))) := by
  induction l generalizing u d with
  | nil => simp
  | cons q rest ih =>
    rw [List.foldl_cons]
    have hq : q.2.foldl (fun ud2 c => (ud2.1 ++ [f1 q c], ud2.2 ++ [f2 q c])) (u, d)
        = (u ++ q.2.map (f1 q), d ++ q.2.map (f2 q)) := foldl_pair_append_single _ _ _ u d
    rw [hq, ih]
    simp [List.append_assoc]

theorem pyJoin_cons (sep a : String) (l : List String) :
    pyJoin sep (a :: l) = a ++ (if l.isEmpty then "" else sep ++ pyJoin sep l) := by
  cases l with
  | nil => show a = a ++ ""; rw [String.append_empty]
  | cons b rest =>
    show a ++ sep ++ pyJoin sep (b :: rest) = a ++ (sep ++ pyJoin sep (b :: rest))
    rw [String.append_assoc]

theorem up_append_ne_sentinel (s : String) :
    "-- Up" ++ s ≠ "-- No changes detected\n" := by
  intro h
  have hd : ('-' :: '-' :: ' ' :: 'U' :: 'p' :: s.data : List Char)
      = "-- No changes detected\n".data := congrArg String.data h
  injection hd with h1 hd
  injection hd with h2 hd
  injection hd with h3 hd
  injection hd with h4 hd
  exact absurd h4 (by decide)

theorem generate_migration_eq_join (changes : ChangeSet) (dialect : String)
    (h : ¬(changes.added_tables = [] ∧ changes.removed_tables = [] ∧
           changes.added_columns = [] ∧ changes.removed_columns = [])) :
    generate_migration changes dialect =
      pyJoin "\n" (upLinesOf changes dialect) ++ "\n\n" ++
      pyJoin "\n" (downLinesOf changes dialect) ++ "\n" := by
  have hcond : (changes.added_tables.isEmpty && changes.removed_tables.isEmpty &&
      changes.added_columns.isEmpty && changes.removed_columns.isEmpty) = false := by
    by_contra hc
    rw [Bool.not_eq_false] at hc
    simp only [Bool.and_eq_true, List.isEmpty_iff] at hc
    exact h ⟨hc.1.1.1, hc.1.1.2, hc.1.2, hc.2⟩
  simp only [generate_migration]
  rw [foldl_pair_append_single, foldl_pair_append_single,
      foldl_pair_append_nested, foldl_pair_append_nested]
  rw [hcond]
  simp [upLinesOf, downLinesOf, List.append_assoc]

theorem generate_migration_sentinel_iff (changes : ChangeSet) (dialect : String) :
    generate_migration changes dialect = "-- No changes detected\n" ↔
      (changes.added_tables = [] ∧ changes.removed_tables = [] ∧
       changes.added_columns = [] ∧ changes.removed_columns = []) := by
  constructor
  · intro hg
    by_contra hne
    rw [generate_migration_eq_join changes dialect hne] at hg
    rw [upLinesOf] at hg
    simp only [List.append_assoc, List.singleton_append, List.cons_append] at hg
    rw [pyJoin_cons] at hg
    simp only [String.append_assoc] at hg
    exact up_append_ne_sentinel _ hg
  · intro hall
    obtain ⟨h1, h2, h3, h4⟩ := hall
    simp only [generate_migration, h1, h2, h3, h4]
    rfl

theorem keysNodup_cons (p : String × α) (l : List (String × α)) :
    keysNodup (p :: l) ↔ (∀ q ∈ l, q.1 ≠ p.1) ∧ keysNodup l := by
  rw [keysNodup, List.map_cons, List.nodup_cons, keysNodup]
  constructor
  · intro ⟨h1, h2⟩
    refine ⟨?_, h2⟩
    intro q hq hqe
    exact h1 (List.mem_map.mpr ⟨q, hq, hqe⟩)
  · intro ⟨h1, h2⟩
    refine ⟨?_, h2⟩
    intro hmem
    obtain ⟨q, hq, hqe⟩ := List.mem_map.mp hmem
    exact h1 q hq hqe

theorem keysNodup_of_dictGet (old : Schema) (hin : ∀ p ∈ old, keysNodup p.2)
    (k : String) (cols : ColumnSet) (h : dictGet old k = some cols) :
    keysNodup cols := by
  unfold dictGet at h
  cases hf : old.find? (fun p => p.1 == k) with
  | none => rw [hf] at h; cases h
  | some p =>
    rw [hf] at h
    have hp : p.2 = cols := Option.some.inj h
    exact hp ▸ hin p (List.mem_of_find?_eq_some hf)

theorem sds_absent (a : List (String × ColumnSet)) (t c v : String)
    (ha : dictMem t a = false) :
    setdefaultSet a t c v = a ++ [(t, [(c, v)])] := by
  unfold setdefaultSet
  rw [ha]
  simp

theorem dictSet_append_fresh (cs : ColumnSet) (c v : String)
    (hc : dictMem c cs = false) : dictSet cs c v = cs ++ [(c, v)] := by
  unfold dictSet
  rw [hc]
  simp

theorem sds_at_end (a : List (String × ColumnSet)) (t : String) (cs : ColumnSet)
    (c v : String) (ha : dictMem t a = false) :
    setdefaultSet (a ++ [(t, cs)]) t c v = a ++ [(t, dictSet cs c v)] := by
  unfold setdefaultSet
  have hmem : dictMem t (a ++ [(t, cs)]) = true := by
    rw [dictMem_append, ha]
    simp [dictMem]
  rw [hmem]
  simp only [if_true, List.map_append]
  have hfix : a.map (fun p => if p.1 == t then (p.1, dictSet p.2 c v) else p) = a := by
    apply map_eq_self_of_fix
    intro p hp
    have : p.1 ≠ t := (dictMem_eq_false_iff t a).mp ha p hp
    simp [this]
  rw [hfix]
  simp

theorem inner_fold_ext (t : String) (other : ColumnSet) (source : ColumnSet) :
    ∀ (a : List (String × ColumnSet)) (cs : ColumnSet),
    dictMem t a = false →
    (∀ c ∈ source, dictMem c.1 cs = false) →
    keysNodup source →
    source.foldl (fun acc c =>
        if dictMem c.1 other then acc else setdefaultSet acc t c.1 c.2) (a ++ [(t, cs)])
      = a ++ [(t, cs ++ colFilter source other)] := by
  induction source with
  | nil =>
    intro a cs _ _ _
    simp [colFilter]
  | cons c src ih =>
    intro a cs ha hcs hnd
    obtain ⟨hhd, htl⟩ := (keysNodup_cons c src).mp hnd
    rw [List.foldl_cons]
    by_cases hc : dictMem c.1 other
    · rw [if_pos hc]
      have hcf : colFilter (c :: src) other = colFilter src other := by
        simp [colFilter, List.filter_cons, hc]
      rw [hcf]
      exact ih a cs ha (fun x hx => hcs x (List.mem_cons_of_mem c hx)) htl
    · have hc' : dictMem c.1 other = false := by simpa using hc
      rw [if_neg hc, sds_at_end a t cs c.1 c.2 ha,
          dictSet_append_fresh cs c.1 c.2 (hcs c (List.mem_cons_self c src))]
      have hcf : colFilter (c :: src) other = c :: colFilter src other := by
        simp [colFilter, List.filter_cons, hc']
      rw [hcf]
      have hfresh : ∀ x ∈ src, dictMem x.1 (cs ++ [(c.1, c.2)]) = false := by
        intro x hx
        rw [dictMem_append, hcs x (List.mem_cons_of_mem c hx)]
        have : c.1 ≠ x.1 := fun he => hhd x hx he.symm
        simp [dictMem, this]
      rw [ih a (cs ++ [(c.1, c.2)]) ha hfresh htl]
      simp [List.append_assoc]

theorem inner_fold_char (t : String) (other : ColumnSet) (source : ColumnSet)
    (a : List (String × ColumnSet)) (ha : dictMem t a = false)
    (hnd : keysNodup source) :
    source.foldl (fun acc c =>
        if dictMem c.1 other then acc else setdefaultSet acc t c.1 c.2) a
      = if (colFilter source other).isEmpty then a
        else a ++ [(t, colFilter source other)] := by
  induction source with
  | nil => simp [colFilter]
  | cons c src ih =>
    obtain ⟨hhd, htl⟩ := (keysNodup_cons c src).mp hnd
    rw [List.foldl_cons]
    by_cases hc : dictMem c.1 other
    · rw [if_pos hc]
      have hcf : colFilter (c :: src) other = colFilter src other := by
        simp [colFilter, List.filter_cons, hc]
      rw [hcf]
      exact ih htl
    · have hc' : dictMem c.1 other = false := by simpa using hc
      rw [if_neg hc, sds_absent a t c.1 c.2 ha]
      have hfresh : ∀ x ∈ src, dictMem x.1 [(c.1, c.2)] = false := by
        intro x hx
        have : c.1 ≠ x.1 := fun he => hhd x hx he.symm
        simp [dictMem, this]
      rw [inner_fold_ext t other src a [(c.1, c.2)] ha hfresh htl]
      have hcf : colFilter (c :: src) other = c :: colFilter src other := by
        simp [colFilter, List.filter_cons, hc']
      rw [hcf]
      simp

theorem cols_fold_char (old : Schema) (hin_old : ∀ p ∈ old, keysNodup p.2) :
    ∀ (n : List (String × ColumnSet)),
    keysNodup n → (∀ p ∈ n, keysNodup p.2) →
    ∀ (a1 a2 : List (String × ColumnSet)),
    (∀ k ∈ n.map (fun p => p.1), dictMem k a1 = false ∧ dictMem k a2 = false) →
    n.foldl
      (fun (acc : List (String × ColumnSet) × List (String × ColumnSet)) q =>
        match dictGet old q.1 with
        | none => acc
        | some oldCols =>
          (q.2.foldl (fun a c =>
              if dictMem c.1 oldCols then a else setdefaultSet a q.1 c.1 c.2) acc.1,
           oldCols.foldl (fun a c =>
              if dictMem c.1 q.2 then a else setdefaultSet a q.1 c.1 c.2) acc.2))
      (a1, a2)
      = (a1 ++ addedColumnsOf old n, a2 ++ removedColumnsOf old n) := by
  intro n
  induction n with
  | nil =>
    intro _ _ a1 a2 _
    simp [addedColumnsOf, removedColumnsOf]
  | cons q rest ih =>
    intro hnd hin a1 a2 hfresh
    obtain ⟨hhd, htl⟩ := (keysNodup_cons q rest).mp hnd
    rw [List.foldl_cons]
    have hfq := hfresh q.1 (List.mem_map.mpr ⟨q, List.mem_cons_self q rest, rfl⟩)
    cases hget : dictGet old q.1 with
    | none =>
      simp only [hget]
      have hA : addedColumnsOf old (q :: rest) = addedColumnsOf old rest := by
        simp [addedColumnsOf, List.filterMap_cons, hget]
      have hR : removedColumnsOf old (q :: rest) = removedColumnsOf old rest := by
        simp [removedColumnsOf, List.filterMap_cons, hget]
      rw [hA, hR]
      exact ih htl (fun p hp => hin p (List.mem_cons_of_mem q hp)) a1 a2
        (fun k hk => hfresh k (by rw [List.map_cons]; exact List.mem_cons_of_mem q.1 hk))
    | some oldCols =>
      simp only [hget]
      have hndq : keysNodup q.2 := hin q (List.mem_cons_self q rest)
      have hndo : keysNodup oldCols := keysNodup_of_dictGet old hin_old q.1 oldCols hget
      rw [inner_fold_char q.1 oldCols q.2 a1 hfq.1 hndq,
          inner_fold_char q.1 q.2 oldCols a2 hfq.2 hndo]
      have hA : addedColumnsOf old (q :: rest) =
          (if (colFilter q.2 oldCols).isEmpty then ([] : List (String × ColumnSet))
           else [(q.1, colFilter q.2 oldCols)]) ++ addedColumnsOf old rest := by
        by_cases he : (colFilter q.2 oldCols).isEmpty
        · have he2 : colFilter q.2 oldCols = [] := List.isEmpty_iff.mp he
          simp [addedColumnsOf, List.filterMap_cons, hget, he, he2]
        · simp only [addedColumnsOf, List.filterMap_cons, hget]
          simp only [he, Bool.false_eq_true, if_false]
          rfl
      have hR : removedColumnsOf old (q :: rest) =
          (if (colFilter oldCols q.2).isEmpty then ([] : List (String × ColumnSet))
           else [(q.1, colFilter oldCols q.2)]) ++ removedColumnsOf old rest := by
        by_cases he : (colFilter oldCols q.2).isEmpty
        · have he2 : colFilter oldCols q.2 = [] := List.isEmpty_iff.mp he
          simp [removedColumnsOf, List.filterMap_cons, hget, he, he2]
        · simp only [removedColumnsOf, List.filterMap_cons, hget]
          simp only [he, Bool.false_eq_true, if_false]
          rfl
      rw [hA, hR]
      have hfresh2 : ∀ k ∈ rest.map (fun p => p.1),
          dictMem k (if (colFilter q.2 oldCols).isEmpty then a1
                     else a1 ++ [(q.1, colFilter q.2 oldCols)]) = false ∧
          dictMem k (if (colFilter oldCols q.2).isEmpty then a2
                     else a2 ++ [(q.1, colFilter oldCols q.2)]) = false := by
        intro k hk
        have hk1 := hfresh k (by rw [List.map_cons]; exact List.mem_cons_of_mem q.1 hk)
        obtain ⟨x, hx, hxe⟩ := List.mem_map.mp hk
        have hkq : q.1 ≠ k := by
          intro he
          exact hhd x hx (hxe ▸ he.symm)
        constructor
        · by_cases he : (colFilter q.2 oldCols).isEmpty
          · rw [if_pos he]; exact hk1.1
          · rw [if_neg he, dictMem_append, hk1.1]
            simp [dictMem, hkq]
        · by_cases he : (colFilter oldCols q.2).isEmpty
          · rw [if_pos he]; exact hk1.2
          · rw [if_neg he, dictMem_append, hk1.2]
            simp [dictMem, hkq]
      by_cases he1 : (colFilter q.2 oldCols).isEmpty <;>
        by_cases he2 : (colFilter oldCols q.2).isEmpty <;>
        · simp only [he1, he2, if_true, if_false, Bool.false_eq_true] at hfresh2 ⊢
          rw [ih htl (fun p hp => hin p (List.mem_cons_of_mem q hp)) _ _ hfresh2]
          simp [List.append_assoc]

theorem diff_columns_canon (old new : Schema) (hnew : keysNodup new)
    (hin_new : ∀ p ∈ new, keysNodup p.2) (hin_old : ∀ p ∈ old, keysNodup p.2) :
    (diff_schemas old new).added_columns = addedColumnsOf old new ∧
    (diff_schemas old new).removed_columns = removedColumnsOf old new := by
  have h := cols_fold_char old hin_old new hnew hin_new [] []
    (fun k _ => ⟨rfl, rfl⟩)
  unfold diff_schemas
  constructor
  · have h1 := congrArg Prod.fst h
    simp only [List.nil_append] at h1
    exact h1
  · have h2 := congrArg Prod.snd h
    simp only [List.nil_append] at h2
    exact h2

theorem dictMem_dictSet (d : List (String × α)) (k T : String) (v : α) :
    dictMem T (dictSet d k v) = (dictMem T d || (k == T)) := by
  unfold dictSet
  by_cases hm : dictMem k d
  · rw [if_pos hm]
    have hkeys : ∀ (e : List (String × α)),
        (e.map (fun p => if p.1 == k then (k, v) else p)).any (fun p => p.1 == T)
          = e.any (fun p => p.1 == T) := by
      intro e
      induction e with
      | nil => rfl
      | cons p ps ihp =>
        rw [List.map_cons, List.any_cons, List.any_cons, ihp]
        by_cases hpk : p.1 == k
        · simp only [hpk, if_true]
          rw [show k = p.1 from (eq_of_beq hpk).symm]
        · simp [hpk]
    show (d.map (fun p => if p.1 == k then (k, v) else p)).any (fun p => p.1 == T)
        = (dictMem T d || (k == T))
    rw [hkeys d]
    show dictMem T d = (dictMem T d || (k == T))
    by_cases hkT : k == T
    · have hTd : dictMem T d = true := by
        rw [show T = k from (eq_of_beq hkT).symm]
        exact hm
      rw [hTd, hkT]
      rfl
    · simp [hkT]
  · rw [if_neg hm, dictMem_append]
    simp [dictMem]

theorem mem_tables_fold (other : Schema) (l : List (String × ColumnSet))
    (acc : Schema) (T : String)
    (h : dictMem T (l.foldl
        (fun acc q => if dictMem q.1 other then acc else dictSet acc q.1 q.2) acc) = true) :
    dictMem T acc = true ∨ (dictMem T other = false ∧ dictMem T l = true) := by
  induction l generalizing acc with
  | nil => exact Or.inl h
  | cons q rest ih =>
    rw [List.foldl_cons] at h
    cases ih _ h with
    | inr hr =>
      right
      refine ⟨hr.1, ?_⟩
      rw [dictMem_cons, hr.2]
      simp
    | inl hl =>
      by_cases hq : dictMem q.1 other
      · rw [if_pos hq] at hl
        exact Or.inl hl
      · rw [if_neg hq, dictMem_dictSet] at hl
        cases Bool.or_eq_true_iff.mp hl with
        | inl hacc => exact Or.inl hacc
        | inr hqT =>
          right
          have hTq : T = q.1 := (eq_of_beq hqT).symm
          constructor
          · rw [hTq]
            simpa using hq
          · rw [dictMem_cons, hqT]
            simp
    
theorem dictGet_filterMap_none (f : (String × ColumnSet) → Option (String × ColumnSet))
    (hf : ∀ q r, f q = some r → r.1 = q.1) (l : Schema) (T : String)
    (hT : ∀ q ∈ l, q.1 ≠ T) :
    dictGet (l.filterMap f) T = none := by
  induction l with
  | nil => rfl
  | cons q rest ih =>
    rw [List.filterMap_cons]
    cases hq : f q with
    | none => exact ih (fun x hx => hT x (List.mem_cons_of_mem q hx))
    | some r =>
      rw [dictGet_cons]
      have hr : r.1 = q.1 := hf q r hq
      have hne : ¬(r.1 == T) = true := by
        rw [hr]
        intro hb
        exact hT q (List.mem_cons_self q rest) (eq_of_beq hb)
      rw [if_neg hne]
      exact ih (fun x hx => hT x (List.mem_cons_of_mem q hx))

theorem dictGet_filterMap (f : (String × ColumnSet) → Option (String × ColumnSet))
    (hf : ∀ q r, f q = some r → r.1 = q.1) (l : Schema) (hl : keysNodup l) (T : String) :
    dictGet (l.filterMap f) T =
      match l.find? (fun p => p.1 == T) with
      | some q => (f q).map (fun r => r.2)
      | none => none := by
  induction l with
  | nil => rfl
  | cons q rest ih =>
    obtain ⟨hhd, htl⟩ := (keysNodup_cons q rest).mp hl
    rw [List.filterMap_cons]
    by_cases hq : (q.1 == T)
    · rw [List.find?_cons_of_pos (p := fun p => p.1 == T) rest hq]
      have hTq : q.1 = T := eq_of_beq hq
      cases hfq : f q with
      | none =>
        have hrest : dictGet (rest.filterMap f) T = none :=
          dictGet_filterMap_none f hf rest T
            (fun x hx hxe => hhd x hx (hxe.trans hTq.symm))
        rw [hrest]
        simp [hfq]
      | some r =>
        have hr : r.1 = q.1 := hf q r hfq
        rw [dictGet_cons]
        have hrT : (r.1 == T) = true := by rw [hr]; exact hq
        rw [if_pos hrT]
        simp [hfq]
    · rw [List.find?_cons_of_neg (p := fun p => p.1 == T) rest hq]
      cases hfq : f q with
      | none => exact ih htl
      | some r =>
        have hr : r.1 = q.1 := hf q r hfq
        rw [dictGet_cons]
        have hne : ¬(r.1 == T) = true := by rw [hr]; exact hq
        rw [if_neg hne]
        exact ih htl

theorem dictGet_addedColumnsOf (o n : Schema) (hn : keysNodup n) (T : String) :
    dictGet (addedColumnsOf o n) T =
      match n.find? (fun p => p.1 == T), o.find? (fun p => p.1 == T) with
      | some qn, some qo =>
        if (colFilter qn.2 qo.2).isEmpty then none else some (colFilter qn.2 qo.2)
      | _, _ => none := by
  have hkey : ∀ (q r : String × ColumnSet),
      (fun q => match dictGet o q.1 with
        | none => none
        | some oldCols =>
          let D := colFilter q.2 oldCols
          if D.isEmpty then none else some (q.1, D)) q = some r → r.1 = q.1 := by
    intro q r h
    cases hg : dictGet o q.1 with
    | none => simp [hg] at h
    | some oldCols =>
      simp only [hg] at h
      by_cases he : (colFilter q.2 oldCols).isEmpty
      · simp [he] at h
      · simp only [he, Bool.false_eq_true, if_false] at h
        rw [← Option.some.inj h]
  rw [show addedColumnsOf o n = n.filterMap (fun q => match dictGet o q.1 with
      | none => none
      | some oldCols =>
        let D := colFilter q.2 oldCols
        if D.isEmpty then none else some (q.1, D)) from rfl]
  rw [dictGet_filterMap _ hkey n hn T]
  cases hfn : n.find? (fun p => p.1 == T) with
  | none => rfl
  | some qn =>
    have hbq := List.find?_some hfn
    have hqT : qn.1 = T := eq_of_beq hbq
    cases hfo : o.find? (fun p => p.1 == T) with
    | none =>
      have hgo : dictGet o qn.1 = none := by
        unfold dictGet
        rw [hqT, hfo]
        rfl
      simp [hgo]
    | some qo =>
      have hgo : dictGet o qn.1 = some qo.2 := by
        unfold dictGet
        rw [hqT, hfo]
        rfl
      simp only [hgo]
      by_cases he : (colFilter qn.2 qo.2).isEmpty
      · simp [he]
      · simp [he]

theorem dictGet_removedColumnsOf (o n : Schema) (hn : keysNodup n) (T : String) :
    dictGet (removedColumnsOf o n) T =
      match n.find? (fun p => p.1 == T), o.find? (fun p => p.1 == T) with
      | some qn, some qo =>
        if (colFilter qo.2 qn.2).isEmpty then none else some (colFilter qo.2 qn.2)
      | _, _ => none := by
  have hkey : ∀ (q r : String × ColumnSet),
      (fun q => match dictGet o q.1 with
        | none => none
        | some oldCols =>
          let D := colFilter oldCols q.2
          if D.isEmpty then none else some (q.1, D)) q = some r → r.1 = q.1 := by
    intro q r h
    cases hg : dictGet o q.1 with
    | none => simp [hg] at h
    | some oldCols =>
      simp only [hg] at h
      by_cases he : (colFilter oldCols q.2).isEmpty
      · simp [he] at h
      · simp only [he, Bool.false_eq_true, if_false] at h
        rw [← Option.some.inj h]
  rw [show removedColumnsOf o n = n.filterMap (fun q => match dictGet o q.1 with
      | none => none
      | some oldCols =>
        let D := colFilter oldCols q.2
        if D.isEmpty then none else some (q.1, D)) from rfl]
  rw [dictGet_filterMap _ hkey n hn T]
  cases hfn : n.find? (fun p => p.1 == T) with
  | none => rfl
  | some qn =>
    have hbq := List.find?_some hfn
    have hqT : qn.1 = T := eq_of_beq hbq
    cases hfo : o.find? (fun p => p.1 == T) with
    | none =>
      have hgo : dictGet o qn.1 = none := by
        unfold dictGet
        rw [hqT, hfo]
        rfl
      simp [hgo]
    | some qo =>
      have hgo : dictGet o qn.1 = some qo.2 := by
        unfold dictGet
        rw [hqT, hfo]
        rfl
      simp only [hgo]
      by_cases he : (colFilter qo.2 qn.2).isEmpty
      · simp [he]
      · simp [he]

theorem dictEq2_added_removed (o n : Schema) (ho : keysNodup o) (hn : keysNodup n) :
    dictEq2 (addedColumnsOf n o) (removedColumnsOf o n) := by
  intro T
  rw [dictGet_addedColumnsOf n o ho T, dictGet_removedColumnsOf o n hn T]
  cases hfo : o.find? (fun p => p.1 == T) with
  | none =>
    cases hfn : n.find? (fun p => p.1 == T) with
    | none => trivial
    | some qn => trivial
  | some qo =>
    cases hfn : n.find? (fun p => p.1 == T) with
    | none => trivial
    | some qn =>
      by_cases he : (colFilter qo.2 qn.2).isEmpty
      · simp only [he, if_true]
        trivial
      · simp only [he, Bool.false_eq_true, if_false]
        exact fun k => rfl

theorem dictEq2_symm (d e : List (String × ColumnSet)) (h : dictEq2 d e) :
    dictEq2 e d := by
  intro k
  have hk := h k
  cases hdk : dictGet d k with
  | none =>
    cases hek : dictGet e k with
    | none => trivial
    | some b => rw [hdk, hek] at hk; exact False.elim hk
  | some a =>
    cases hek : dictGet e k with
    | none => rw [hdk, hek] at hk; exact False.elim hk
    | some b =>
      rw [hdk, hek] at hk
      exact fun x => (hk x).symm

/-- C1: diffing is anti-symmetric: swapping the two schema arguments swaps
`added_tables` with `removed_tables` and `added_columns` with
`removed_columns`.  The table categories agree as association lists; the
column categories agree as mappings (Python dict equality), which is how two
dicts are compared — their entry order may differ when the shared tables
appear in different orders in the two schemas. -/
theorem diff_schemas_antisymm (o n : Schema) (ho : schemaWf o) (hn : schemaWf n) :
    (diff_schemas n o).added_tables = (diff_schemas o n).removed_tables ∧
    (diff_schemas n o).removed_tables = (diff_schemas o n).added_tables ∧
    dictEq2 (diff_schemas n o).added_columns (diff_schemas o n).removed_columns ∧
    dictEq2 (diff_schemas n o).removed_columns (diff_schemas o n).added_columns := by
  obtain ⟨hon, hoin⟩ := ho
  obtain ⟨hnn, hnin⟩ := hn
  refine ⟨rfl, rfl, ?_, ?_⟩
  · rw [(diff_columns_canon n o hon hoin hnin).1,
        (diff_columns_canon o n hnn hnin hoin).2]
    exact dictEq2_added_removed o n hon hnn
  · rw [(diff_columns_canon n o hon hoin hnin).2,
        (diff_columns_canon o n hnn hnin hoin).1]
    exact dictEq2_symm _ _ (dictEq2_added_removed n o hnn hon)

/-- Witness for C1 at a concrete pair of schemas. -/
theorem diff_schemas_antisymm_witness :
    schemaWf [("A", [("x", "INTEGER")])] ∧ schemaWf [("A", [])] ∧
    (diff_schemas [("A", [])] [("A", [("x", "INTEGER")])]).added_tables =
      (diff_schemas [("A", [("x", "INTEGER")])] [("A", [])]).removed_tables :=
  ⟨by decide, by decide,
   (diff_schemas_antisymm [("A", [("x", "INTEGER")])] [("A", [])]
     (by decide) (by decide)).1⟩

/-- C2: diffing a schema against itself produces the all-empty change set,
rendering it gives exactly the sentinel string, and in general
`generate_migration` returns the sentinel exactly when every change-set
category is empty. -/
theorem diff_self_and_sentinel :
    (∀ (s : Schema), keysNodup s → diff_schemas s s = ⟨[], [], [], []⟩) ∧
    (∀ (s : Schema) (dialect : String), keysNodup s →
      generate_migration (diff_schemas s s) dialect = "-- No changes detected\n") ∧
    (∀ (cs : ChangeSet) (dialect : String),
      generate_migration cs dialect = "-- No changes detected\n" ↔
        (cs.added_tables = [] ∧ cs.removed_tables = [] ∧
         cs.added_columns = [] ∧ cs.removed_columns = [])) := by
  refine ⟨fun s hs => diff_self_empty s hs, fun s d hs => ?_,
    fun cs d => generate_migration_sentinel_iff cs d⟩
  rw [diff_self_empty s hs]
  rfl

/-- Witness for C2 at a concrete schema. -/
theorem diff_self_and_sentinel_witness :
    keysNodup [("t", [("id", "INTEGER")])] ∧
    diff_schemas [("t", [("id", "INTEGER")])] [("t", [("id", "INTEGER")])] =
      ⟨[], [], [], []⟩ ∧
    generate_migration
      (diff_schemas [("t", [("id", "INTEGER")])] [("t", [("id", "INTEGER")])])
      "sqlite" = "-- No changes detected\n" :=
  ⟨by decide,
   diff_self_and_sentinel.1 [("t", [("id", "INTEGER")])] (by decide),
   diff_self_and_sentinel.2.1 [("t", [("id", "INTEGER")])] "sqlite" (by decide)⟩

/-- C3 counterexample: the claim says removed-column entries follow the OLD
schema's table insertion order, but `diff_schemas` iterates the NEW schema's
tables when collecting removed columns.  With old = {A: {x}, B: {y}} and
new = {B: {}, A: {}} the code produces [B, A] while the claimed old-table
order is [A, B]. -/
theorem removed_columns_old_order_false :
    (diff_schemas [("A", [("x", "INTEGER")]), ("B", [("y", "INTEGER")])]
        [("B", []), ("A", [])]).removed_columns
      ≠ removedColumnsSpecOrder
          [("A", [("x", "INTEGER")]), ("B", [("y", "INTEGER")])]
          [("B", []), ("A", [])] := by
  decide

/-- C3 (amended): `added_columns` follows the NEW schema's table insertion
order then the new schema's column insertion order, and `removed_columns`
follows the NEW schema's table iteration order (restricted to tables in both
schemas) with columns in the OLD schema's column insertion order; the diff is
a pure function, so identical inputs always reproduce identical ordering. -/
theorem diff_columns_iteration_order (old new : Schema)
    (ho : schemaWf old) (hn : schemaWf new) :
    (diff_schemas old new).added_columns = addedColumnsOf old new ∧
    (diff_schemas old new).removed_columns = removedColumnsOf old new :=
  diff_columns_canon old new hn.1 hn.2 ho.2

/-- Witness for the amended C3 at a concrete pair of schemas. -/
theorem diff_columns_iteration_order_witness :
    schemaWf [("A", [("x", "INTEGER")]), ("B", [("y", "INTEGER")])] ∧
    schemaWf [("B", []), ("A", [])] ∧
    (diff_schemas [("A", [("x", "INTEGER")]), ("B", [("y", "INTEGER")])]
        [("B", []), ("A", [])]).removed_columns =
      removedColumnsOf [("A", [("x", "INTEGER")]), ("B", [("y", "INTEGER")])]
        [("B", []), ("A", [])] :=
  ⟨by decide, by decide,
   (diff_columns_iteration_order
     [("A", [("x", "INTEGER")]), ("B", [("y", "INTEGER")])]
     [("B", []), ("A", [])] (by decide) (by decide)).2⟩

/-- C4: fragment classification in the parser.  A fragment whose stripped,
upper-cased text starts with a table-level constraint keyword is skipped; a
fragment with at least two whitespace tokens assigns the first token as the
column name and the rest rejoined with single spaces as the definition; a
fragment with fewer than two tokens is dropped.  In particular parsing the
spec's example keeps the column-level PRIMARY KEY attached to its column. -/
theorem fragStep_fragment_classification :
    (∀ (cols : ColumnSet) (frag : String),
      (kwSkipList.any (fun kw => strStartsWith (pyUpper (pyStrip frag)) kw) = true →
        fragStep cols frag = cols) ∧
      (∀ (p0 p1 : String) (ps : List String),
        kwSkipList.any (fun kw => strStartsWith (pyUpper (pyStrip frag)) kw) = false →
        pySplitWs (pyStrip frag) = p0 :: p1 :: ps →
        fragStep cols frag = dictSet cols p0 (pyJoin " " (p1 :: ps))) ∧
      (kwSkipList.any (fun kw => strStartsWith (pyUpper (pyStrip frag)) kw) = false →
        (pySplitWs (pyStrip frag)).length < 2 →
        fragStep cols frag = cols)) ∧
    parse_schema "CREATE TABLE t (id INTEGER PRIMARY KEY, name TEXT);" =
      [("t", [("id", "INTEGER PRIMARY KEY"), ("name", "TEXT")])] := by
  constructor
  · intro cols frag
    refine ⟨?_, ?_, ?_⟩
    · intro hkw
      simp only [fragStep]
      by_cases hline : pyStrip frag = ""
      · rw [if_pos hline]
      · rw [if_neg hline, if_pos hkw]
    · intro p0 p1 ps hkw hsplit
      simp only [fragStep]
      have hline : ¬(pyStrip frag = "") := by
        intro he
        rw [he] at hsplit
        have hempty : pySplitWs "" = [] := rfl
        rw [hempty] at hsplit
        cases hsplit
      have hkw2 : ¬(kwSkipList.any
          (fun kw => strStartsWith (pyUpper (pyStrip frag)) kw) = true) := by
        rw [hkw]
        exact Bool.false_ne_true
      rw [if_neg hline, if_neg hkw2, hsplit]
    · intro hkw hlen
      simp only [fragStep]
      by_cases hline : pyStrip frag = ""
      · rw [if_pos hline]
      · have hkw2 : ¬(kwSkipList.any
            (fun kw => strStartsWith (pyUpper (pyStrip frag)) kw) = true) := by
          rw [hkw]
          exact Bool.false_ne_true
        rw [if_neg hline, if_neg hkw2]
        cases hsp : pySplitWs (pyStrip frag) with
        | nil => rfl
        | cons x xs =>
          cases xs with
          | nil => rfl
          | cons y ys =>
            rw [hsp] at hlen
            simp only [List.length_cons] at hlen
            exact absurd hlen (by omega)
  · decide

/-- Witness for the keyword-skip branch of C4 at a concrete fragment. -/
theorem fragStep_fragment_classification_witness :
    kwSkipList.any (fun kw =>
      strStartsWith (pyUpper (pyStrip " PRIMARY KEY (id)")) kw) = true ∧
    fragStep [("a", "INTEGER")] " PRIMARY KEY (id)" = [("a", "INTEGER")] :=
  ⟨by decide,
   (fragStep_fragment_classification.1 [("a", "INTEGER")] " PRIMARY KEY (id)").1
     (by decide)⟩

/-- C5: a table present in both schemas appears in neither `added_tables` nor
`removed_tables`, and no table name is in both maps. -/
theorem diff_tables_invariant (old new : Schema) (T : String) :
    (dictMem T old = true → dictMem T new = true →
      dictMem T (diff_schemas old new).added_tables = false ∧
      dictMem T (diff_schemas old new).removed_tables = false) ∧
    ¬(dictMem T (diff_schemas old new).added_tables = true ∧
      dictMem T (diff_schemas old new).removed_tables = true) := by
  constructor
  · intro hTo hTn
    constructor
    · by_cases hb : dictMem T (diff_schemas old new).added_tables = true
      · exfalso
        rcases mem_tables_fold old new [] T hb with h | ⟨h1, _⟩
        · exact Bool.noConfusion h
        · rw [hTo] at h1
          exact Bool.noConfusion h1
      · simpa using hb
    · by_cases hb : dictMem T (diff_schemas old new).removed_tables = true
      · exfalso
        rcases mem_tables_fold new old [] T hb with h | ⟨h1, _⟩
        · exact Bool.noConfusion h
        · rw [hTn] at h1
          exact Bool.noConfusion h1
      · simpa using hb
  · intro ⟨hA, hR⟩
    rcases mem_tables_fold old new [] T hA with h | ⟨h1, _⟩
    · exact Bool.noConfusion h
    · rcases mem_tables_fold new old [] T hR with h2 | ⟨_, h4⟩
      · exact Bool.noConfusion h2
      · rw [h4] at h1
        exact Bool.noConfusion h1

/-- Witness for C5 at a concrete shared table. -/
theorem diff_tables_invariant_witness :
    dictMem "t" ([("t", [("a", "INTEGER")])] : Schema) = true ∧
    dictMem "t" ([("t", [])] : Schema) = true ∧
    dictMem "t" (diff_schemas [("t", [("a", "INTEGER")])]
      ([("t", [])] : Schema)).added_tables = false ∧
    dictMem "t" (diff_schemas [("t", [("a", "INTEGER")])]
      ([("t", [])] : Schema)).removed_tables = false :=
  ⟨by decide, by decide,
   ((diff_tables_invariant [("t", [("a", "INTEGER")])] ([("t", [])] : Schema) "t").1
     (by decide) (by decide)).1,
   ((diff_tables_invariant [("t", [("a", "INTEGER")])] ([("t", [])] : Schema) "t").1
     (by decide) (by decide)).2⟩

/-- C8: later CREATE TABLE blocks for the same table name overwrite earlier
ones: looking up any table name in the parse result gives exactly the parsed
body of the LAST matched block with that name (no merging), and a concrete
two-block example. -/
theorem parse_schema_last_wins :
    (∀ (sql T : String),
      dictGet (parse_schema sql) T =
        ((findMatchesOf sql).filter (fun m => m.1 == T)).getLast?.map
          (fun m => parse_body m.2)) ∧
    parse_schema "CREATE TABLE t (a INTEGER);\nCREATE TABLE t (b TEXT);" =
      [("t", [("b", "TEXT")])] := by
  constructor
  · intro sql T
    rw [show parse_schema sql = (findMatchesOf sql).foldl
        (fun tables m => dictSet tables m.1 (parse_body m.2)) [] from rfl]
    rw [dictGet_foldl_dictSet (fun m => parse_body m.2) (findMatchesOf sql) [] T]
    cases ((findMatchesOf sql).filter (fun m => m.1 == T)).getLast? with
    | none => rfl
    | some m => rfl
  · decide

/-- C6: for an added column C with definition defn in table T the Up lines
contain `ALTER TABLE T ADD COLUMN C defn;` for every dialect, and the Down
side is the manual-action comment for dialect "sqlite" and
`ALTER TABLE T DROP COLUMN C;` otherwise; symmetrically for removed columns
(comment or DROP in Up, ADD in Down). -/
theorem migration_column_statements (cs : ChangeSet)
    (dialect T C defn : String) (cols : ColumnSet) :
    ((T, cols) ∈ cs.added_columns → (C, defn) ∈ cols →
      addColumnStmt T C defn ∈ upLinesOf cs dialect ∧
      (dialect = "sqlite" → sqliteNoteStmt T C ∈ downLinesOf cs dialect) ∧
      (dialect ≠ "sqlite" → dropColumnStmt T C ∈ downLinesOf cs dialect)) ∧
    ((T, cols) ∈ cs.removed_columns → (C, defn) ∈ cols →
      (dialect = "sqlite" → sqliteNoteStmt T C ∈ upLinesOf cs dialect) ∧
      (dialect ≠ "sqlite" → dropColumnStmt T C ∈ upLinesOf cs dialect) ∧
      addColumnStmt T C defn ∈ downLinesOf cs dialect) := by
  constructor
  · intro hT hC
    refine ⟨?_, ?_, ?_⟩
    · have h1 : addColumnStmt T C defn ∈ cs.added_columns.flatMap
          (fun q => q.2.map (fun c => addColumnStmt q.1 c.1 c.2)) :=
        List.mem_flatMap.mpr ⟨(T, cols), hT, List.mem_map.mpr ⟨(C, defn), hC, rfl⟩⟩
      exact List.mem_append.mpr (Or.inl (List.mem_append.mpr (Or.inr h1)))
    · intro hd
      subst hd
      have h1 : sqliteNoteStmt T C ∈ cs.added_columns.flatMap
          (fun q => q.2.map (fun c =>
            if "sqlite" == "sqlite" then sqliteNoteStmt q.1 c.1
            else dropColumnStmt q.1 c.1)) :=
        List.mem_flatMap.mpr ⟨(T, cols), hT,
          List.mem_map.mpr ⟨(C, defn), hC, by simp⟩⟩
      exact List.mem_append.mpr (Or.inl (List.mem_append.mpr (Or.inr h1)))
    · intro hd
      have h1 : dropColumnStmt T C ∈ cs.added_columns.flatMap
          (fun q => q.2.map (fun c =>
            if dialect == "sqlite" then sqliteNoteStmt q.1 c.1
            else dropColumnStmt q.1 c.1)) :=
        List.mem_flatMap.mpr ⟨(T, cols), hT,
          List.mem_map.mpr ⟨(C, defn), hC, by simp [hd]⟩⟩
      exact List.mem_append.mpr (Or.inl (List.mem_append.mpr (Or.inr h1)))
  · intro hT hC
    refine ⟨?_, ?_, ?_⟩
    · intro hd
      subst hd
      have h1 : sqliteNoteStmt T C ∈ cs.removed_columns.flatMap
          (fun q => q.2.map (fun c =>
            if "sqlite" == "sqlite" then sqliteNoteStmt q.1 c.1
            else dropColumnStmt q.1 c.1)) :=
        List.mem_flatMap.mpr ⟨(T, cols), hT,
          List.mem_map.mpr ⟨(C, defn), hC, by simp⟩⟩
      exact List.mem_append.mpr (Or.inr h1)
    · intro hd
      have h1 : dropColumnStmt T C ∈ cs.removed_columns.flatMap
          (fun q => q.2.map (fun c =>
            if dialect == "sqlite" then sqliteNoteStmt q.1 c.1
            else dropColumnStmt q.1 c.1)) :=
        List.mem_flatMap.mpr ⟨(T, cols), hT,
          List.mem_map.mpr ⟨(C, defn), hC, by simp [hd]⟩⟩
      exact List.mem_append.mpr (Or.inr h1)
    · have h1 : addColumnStmt T C defn ∈ cs.removed_columns.flatMap
          (fun q => q.2.map (fun c => addColumnStmt q.1 c.1 c.2)) :=
        List.mem_flatMap.mpr ⟨(T, cols), hT, List.mem_map.mpr ⟨(C, defn), hC, rfl⟩⟩
      exact List.mem_append.mpr (Or.inr h1)

/-- Witness for C6 at a concrete change set and dialect. -/
theorem migration_column_statements_witness :
    ("t", [("email", "TEXT")]) ∈
      (⟨[], [], [("t", [("email", "TEXT")])], []⟩ : ChangeSet).added_columns ∧
    ("email", "TEXT") ∈ [("email", "TEXT")] ∧
    addColumnStmt "t" "email" "TEXT" ∈
      upLinesOf ⟨[], [], [("t", [("email", "TEXT")])], []⟩ "postgresql" :=
  ⟨by decide, by decide,
   ((migration_column_statements ⟨[], [], [("t", [("email", "TEXT")])], []⟩
      "postgresql" "t" "email" "TEXT" [("email", "TEXT")]).1
     (by decide) (by decide)).1⟩

/-- C7: for a non-empty change set the output is the Up lines joined by
newlines, a blank line, the Down lines joined by newlines and a trailing
newline, where the line lists follow the exact category order added tables,
removed tables, added columns, removed columns (see `upLinesOf` and
`downLinesOf`), and multi-column CREATE TABLE blocks join definitions with
",\n    " wrapped as "(\n    ...\n);" (see `createTableStmt`). -/
theorem migration_output_structure :
    (∀ (cs : ChangeSet) (dialect : String),
      ¬(cs.added_tables = [] ∧ cs.removed_tables = [] ∧
        cs.added_columns = [] ∧ cs.removed_columns = []) →
      generate_migration cs dialect =
        pyJoin "\n" (upLinesOf cs dialect) ++ "\n\n" ++
        pyJoin "\n" (downLinesOf cs dialect) ++ "\n") ∧
    (∀ (t : String) (columns : ColumnSet),
      createTableStmt t columns =
        "CREATE TABLE " ++ t ++ " (\n    " ++
        pyJoin ",\n    " (columns.map (fun c => c.1 ++ " " ++ c.2)) ++ "\n);") :=
  ⟨fun cs d h => generate_migration_eq_join cs d h, fun _ _ => rfl⟩

/-- Witness for C7 at a concrete change set. -/
theorem migration_output_structure_witness :
    ¬((⟨[("t", [("id", "INTEGER")])], [], [], []⟩ : ChangeSet).added_tables = [] ∧
      (⟨[("t", [("id", "INTEGER")])], [], [], []⟩ : ChangeSet).removed_tables = [] ∧
      (⟨[("t", [("id", "INTEGER")])], [], [], []⟩ : ChangeSet).added_columns = [] ∧
      (⟨[("t", [("id", "INTEGER")])], [], [], []⟩ : ChangeSet).removed_columns = []) ∧
    generate_migration ⟨[("t", [("id", "INTEGER")])], [], [], []⟩ "postgresql" =
      "-- Up\nCREATE TABLE t (\n    id INTEGER\n);\n\n-- Down\nDROP TABLE IF EXISTS t;\n" := by
  constructor
  · decide
  · rw [migration_output_structure.1 ⟨[("t", [("id", "INTEGER")])], [], [], []⟩
      "postgresql" (by decide)]
    decide

/-- C9: the constraint-keyword skip is a raw prefix test on the upper-cased
fragment, not a token match, so ordinary columns whose names merely begin
with a keyword string (checksum, unique_id, constraint_kind) are silently
dropped from the parsed table. -/
theorem keyword_skip_drops_matching_columns :
    (∀ (cols : ColumnSet) (frag : String),
      kwSkipList.any (fun kw => strStartsWith (pyUpper (pyStrip frag)) kw) = true →
      fragStep cols frag = cols) ∧
    parse_schema
      "CREATE TABLE t (checksum INTEGER, unique_id TEXT, constraint_kind TEXT, a INTEGER);" =
      [("t", [("a", "INTEGER")])] := by
  constructor
  · intro cols frag hkw
    simp only [fragStep]
    by_cases hline : pyStrip frag = ""
    · rw [if_pos hline]
    · rw [if_neg hline, if_pos hkw]
  · decide

/-- Witness for C9: the fragment "checksum INTEGER" is an ordinary column
definition whose upper-cased text starts with "CHECK", so it is skipped. -/
theorem keyword_skip_drops_matching_columns_witness :
    kwSkipList.any (fun kw =>
      strStartsWith (pyUpper (pyStrip "checksum INTEGER")) kw) = true ∧
    fragStep [("a", "INTEGER")] "checksum INTEGER" = [("a", "INTEGER")] :=
  ⟨by decide,
   keyword_skip_drops_matching_columns.1 [("a", "INTEGER")] "checksum INTEGER"
     (by decide)⟩

/-- C10: the name capture of the CREATE TABLE regex (`spanWord`, modelling
`(\w+)`) only ever produces a nonempty run of word characters, and quoted or
schema-qualified table names make the whole pattern fail, so such statements
contribute no table entry and raise no error. -/
theorem table_name_word_chars_only :
    (∀ (s w r : List Char), spanWord s = some (w, r) →
      w.all py_isword = true ∧ w ≠ []) ∧
    parse_schema "CREATE TABLE \"users\" (id INTEGER);" = [] ∧
    parse_schema "CREATE TABLE public.users (id INTEGER);" = [] := by
  refine ⟨?_, by decide, by decide⟩
  intro s w r h
  simp only [spanWord] at h
  by_cases he : (s.takeWhile py_isword).isEmpty
  · rw [if_pos he] at h
    cases h
  · rw [if_neg he] at h
    have hpair := Option.some.inj h
    have hw : s.takeWhile py_isword = w := congrArg Prod.fst hpair
    constructor
    · rw [← hw, List.all_eq_true]
      intro x hx
      exact List.mem_takeWhile_imp hx
    · rw [← hw]
      intro hnil
      rw [hnil] at he
      exact he rfl

/-- Witness for C10 at a concrete word run. -/
theorem table_name_word_chars_only_witness :
    spanWord ['t', '1', ' '] = some (['t', '1'], [' ']) ∧
    (['t', '1'].all py_isword = true ∧ ['t', '1'] ≠ []) :=
  ⟨by decide,
   table_name_word_chars_only.1 ['t', '1', ' '] ['t', '1'] [' '] (by decide)⟩
